import Mathlib

/-!
Verification of the deployment-synchronization module of a VS Code
extension for IBM i development (source file `deployment.ts`).

The definitions below are a shallow embedding of that module: pure
computations become Lean functions, the effectful deployment strategies
become functions that return the list of remote operations they issue
together with their outcome, and the external Node / VS Code
capabilities (gitignore matching, `path` utilities, the SSH transfer
primitives) are modelled at their interface boundary, as the
specification describes them.
-/

namespace Deployment

/-! ### String helpers

Small executable models of the JavaScript string operations used by the
module: ASCII lower-casing (for the case-insensitive ignore matcher),
splitting a path on `/`, the `String.prototype.includes` substring test,
and the posix `join` / `basename` / `dirname` used on remote paths.
-/

/-- ASCII lower-casing of one character, as performed by the
case-insensitive gitignore matcher. -/
def lowerChar (c : Char) : Char :=
  if h : 65 ≤ c.toNat ∧ c.toNat ≤ 90 then
    Char.ofNatAux (c.toNat + 32) (Or.inl (by omega))
  else c

/-- Characters are equal when their scalar values are equal. -/
theorem char_eq_of_toNat_eq {c d : Char} (h : c.toNat = d.toNat) : c = d :=
  Char.eq_of_val_eq (UInt32.eq_of_toBitVec_eq (BitVec.eq_of_toNat_eq h))

theorem toNat_lowerChar (c : Char) :
    (lowerChar c).toNat =
      if 65 ≤ c.toNat ∧ c.toNat ≤ 90 then c.toNat + 32 else c.toNat := by
  unfold lowerChar
  split
  next h => rfl
  next h => rfl

theorem lowerChar_eq_self {c : Char} (h : ¬(65 ≤ c.toNat ∧ c.toNat ≤ 90)) :
    lowerChar c = c := by
  unfold lowerChar
  exact dif_neg h

theorem lowerChar_lowerChar (c : Char) :
    lowerChar (lowerChar c) = lowerChar c := by
  by_cases h : 65 ≤ c.toNat ∧ c.toNat ≤ 90
  · apply lowerChar_eq_self
    rw [toNat_lowerChar, if_pos h]
    omega
  · rw [lowerChar_eq_self h]
    exact lowerChar_eq_self h

theorem lowerChar_slash_iff (c : Char) : lowerChar c = '/' ↔ c = '/' := by
  constructor
  · intro h
    by_cases hc : 65 ≤ c.toNat ∧ c.toNat ≤ 90
    · exfalso
      have h1 : (lowerChar c).toNat = c.toNat + 32 := by
        rw [toNat_lowerChar, if_pos hc]
      rw [h] at h1
      have : ('/').toNat = 47 := rfl
      omega
    · rw [lowerChar_eq_self hc] at h
      exact h
  · intro h
    subst h
    rfl

/-- ASCII lower-casing of a character list. -/
def lowerList (l : List Char) : List Char := l.map lowerChar

theorem lowerList_lowerList (l : List Char) :
    lowerList (lowerList l) = lowerList l := by
  simp only [lowerList, List.map_map]
  apply List.map_congr_left
  intro c _
  exact lowerChar_lowerChar c

/-- ASCII lower-casing of a string. -/
def lowerStr (s : String) : String := ⟨lowerList s.data⟩

/-- Splits a character list into the segments between `/` separators. -/
def splitSegs : List Char → List (List Char)
  | [] => [[]]
  | c :: rest =>
    if c = '/' then [] :: splitSegs rest
    else
      match splitSegs rest with
      | [] => [[c]]
      | s :: ss => (c :: s) :: ss

theorem splitSegs_ne_nil (l : List Char) : splitSegs l ≠ [] := by
  cases l with
  | nil => simp [splitSegs]
  | cons c rest =>
    unfold splitSegs
    split
    · simp
    · split <;> simp

/-- Lower-casing a path and then splitting it on `/` gives the
lower-casings of the segments of the original path. -/
theorem splitSegs_lowerList (l : List Char) :
    splitSegs (lowerList l) = (splitSegs l).map lowerList := by
  induction l with
  | nil => rfl
  | cons c rest ih =>
    show splitSegs (lowerChar c :: lowerList rest) = _
    unfold splitSegs
    by_cases h : c = '/'
    · rw [if_pos ((lowerChar_slash_iff c).mpr h), if_pos h, ih]
      rfl
    · rw [if_neg (fun hc => h ((lowerChar_slash_iff c).mp hc)), if_neg h]
      cases hs : splitSegs rest with
      | nil => exact absurd hs (splitSegs_ne_nil rest)
      | cons s ss =>
        rw [show splitSegs (lowerList rest) = List.map lowerList (s :: ss) from hs ▸ ih]
        rfl

/-- Decides whether `needle` occurs as a contiguous substring of `hay`;
models `String.prototype.includes` of JavaScript. -/
def hasSubstr (needle : List Char) : List Char → Bool
  | [] => needle.isEmpty
  | c :: rest => needle.isPrefixOf (c :: rest) || hasSubstr needle rest

/-- Substring test on strings, models `s.includes(needle)`. -/
def strIncludes (s needle : String) : Bool :=
  hasSubstr needle.data s.data

/-- Prefix test on strings, models `s.startsWith(p)` of JavaScript. -/
def strStartsWith (s p : String) : Bool :=
  p.data.isPrefixOf s.data

/-- Joins a base path and a relative tail with a single `/`; models
`path.posix.join` and the template literal `remotePath/relative` for the
slash-free-suffix bases and relative tails this module produces. -/
def posixJoin (base tail : String) : String :=
  base ++ "/" ++ tail

/-- Last `/`-separated segment of a path; models `path.basename` for the
posix-style paths handled here. -/
def posixBasename (p : String) : String :=
  ⟨(splitSegs p.data).getLastD []⟩

/-- Joins segments back with `/` separators. -/
def joinSegs : List (List Char) → List Char
  | [] => []
  | [s] => s
  | s :: rest => s ++ '/' :: joinSegs rest

/-- Directory part of a path; models Node `path.dirname` for the
absolute posix remote paths (at least two segments) built here. -/
def posixDirname (p : String) : String :=
  let segs := splitSegs p.data
  if segs.length ≤ 1 then "." else ⟨joinSegs segs.dropLast⟩

/-- Deduplication keeping the first occurrence of each element; models
the JavaScript `[...new Set(xs)]` idiom. -/
def dedupFirst : List String → List String
  | [] => []
  | x :: xs => x :: dedupFirst (xs.filter fun y => y ≠ x)
termination_by l => l.length
decreasing_by
  exact Nat.lt_succ_of_le (List.length_filter_le _ _)

/-! ### Data model

Direct counterparts of the records the module manipulates. -/

/-- The parts of a `vscode.Uri` this module reads: the filesystem scheme,
the OS file-system path and the posix-style path. -/
structure Uri where
  scheme : String
  fsPath : String
  path : String
deriving DecidableEq, Repr

/-- One scheduled file transfer (`Upload` in the source; the `local`
field is called `localPath` because `local` is reserved in Lean). -/
structure Upload where
  localPath : String
  remote : String
deriving DecidableEq, Repr

/-- One parsed line of the remote hash listing (`MD5Entry`). -/
structure MD5Entry where
  path : String
  md5 : String
deriving DecidableEq, Repr

/-- One local file as the strategies see it: the absolute OS path
(`uri.fsPath`) plus the workspace-relative slash-separated path.  The
relative path is carried as data because the source computes it with the
external Node `path.relative`. -/
structure LocalFile where
  fsPath : String
  path : String
deriving DecidableEq, Repr

/-! ### Ignore Filter

The gitignore matcher itself is the external npm `ignore` package.
Modelled from the spec: `build(baseRules, ignoreFileContent)` compiles an
ordered rule list and `isIgnored` matches a relative path against it
with standard gitignore pattern semantics — negation (`!`),
directory-anchored patterns, wildcards — deciding by the LAST rule that
matches (later rules override earlier ones), case-insensitively when the
`ignorecase` option is set.  Blank lines and `#` comment lines are
inert.  A pattern that matches a directory component ignores everything
under that directory. -/

structure IgnoreRules where
  ignorecase : Bool
  patterns : List String
deriving DecidableEq, Repr

/-- One compiled gitignore rule: its polarity, whether it is anchored to
the root of the tree, and its `/`-split segments. -/
structure IgnorePattern where
  negated : Bool
  anchored : Bool
  segs : List (List Char)
deriving DecidableEq, Repr

/-- Glob match of one pattern segment against one path segment: `*`
matches any character run, `?` any one character, anything else itself. -/
def globMatch : List Char → List Char → Bool
  | [], s => s.isEmpty
  | '*' :: ps, s => (List.tails s).any fun t => globMatch ps t
  | '?' :: ps, s =>
    match s with
    | [] => false
    | _ :: cs => globMatch ps cs
  | p :: ps, s =>
    match s with
    | [] => false
    | c :: cs => p == c && globMatch ps cs

/-- Matches pattern segments against path segments from the current
position; an exhausted pattern matches (a matched directory ignores its
contents), and a `**` segment spans any number of path segments. -/
def matchSegs : List (List Char) → List (List Char) → Bool
  | [], _ => true
  | p :: ps, segs =>
    if p = ['*', '*'] then (List.tails segs).any fun t => matchSegs ps t
    else
      match segs with
      | [] => false
      | s :: ss => globMatch p s && matchSegs ps ss

/-- Compiles the body of one rule (after the `!` polarity is stripped):
a trailing `/` (directory marker) is dropped, a leading `/` anchors the
pattern, a leading `**/` explicitly un-anchors it, and otherwise the
pattern is anchored exactly when it still contains a `/`. -/
def parseCore (negated : Bool) (core : List Char) : IgnorePattern :=
  let core := if core.getLastD ' ' = '/' then core.dropLast else core
  match core with
  | '/' :: rest => { negated := negated, anchored := true, segs := splitSegs rest }
  | '*' :: '*' :: '/' :: rest =>
    { negated := negated, anchored := false, segs := splitSegs rest }
  | l => { negated := negated, anchored := l.contains '/', segs := splitSegs l }

/-- Compiles one gitignore rule line: a leading `!` negates it. -/
def parsePattern (line : String) : IgnorePattern :=
  match line.data with
  | '!' :: rest => parseCore true rest
  | l => parseCore false l

/-- Blank lines and `#` comment lines are not rules. -/
def activeRule (line : String) : Bool :=
  match line.data with
  | [] => false
  | '#' :: _ => false
  | _ => true

/-- Whether one compiled rule matches the path: anchored rules match
from the root only, un-anchored rules match starting at any component. -/
def patMatches (anchored : Bool) (psegs segs : List (List Char)) : Bool :=
  if anchored then matchSegs psegs segs
  else (List.tails segs).any fun t => matchSegs psegs t

/-- One step of the rule walk: a matching rule decides the current
verdict by its polarity (so the last matching rule wins), a
non-matching rule keeps it. -/
def ruleStep (ignorecase : Bool) (segs : List (List Char)) (ignored : Bool)
    (pat : IgnorePattern) : Bool :=
  if patMatches pat.anchored
      (if ignorecase then pat.segs.map lowerList else pat.segs) segs then
    !pat.negated
  else ignored

/-- Modelled from the spec: `IgnoreRuleSet.isIgnored` of the Ignore
Filter (the npm `ignore` package behind `ignoreRules.ignores`), with
last-match-wins precedence over the compiled rules. -/
def IgnoreRules.ignores (rules : IgnoreRules) (relative : String) : Bool :=
  ((rules.patterns.filter activeRule).map parsePattern).foldl
    (ruleStep rules.ignorecase
      (if rules.ignorecase then (splitSegs relative.data).map lowerList
       else splitSegs relative.data))
    false

/-- Builds the ignore rule set exactly as `launchDeploy` does: the
matcher is created case-insensitive with the base rule `.git`; when a
`.gitignore` file was found its lines are added followed by the rule
`**/.gitignore`; when none was found only the base rule applies. -/
def buildIgnoreRules (gitignoreContent : Option (List String)) : IgnoreRules :=
  match gitignoreContent with
  | none => { ignorecase := true, patterns := [".git"] }
  | some lines =>
    { ignorecase := true, patterns := [".git"] ++ lines ++ ["**/.gitignore"] }

/-! ### Remote operations and strategy outcomes -/

/-- One operation issued to the remote session: a shell command (with
its optional working directory), a batched file transfer (`putFiles`),
or a recursive directory transfer (`putDirectory`). -/
inductive RemoteOp where
  | shellCommand (directory : Option String) (command : String)
  | putFiles (uploads : List Upload)
  | putDirectory (localRoot : String) (remotePath : String)
deriving DecidableEq, Repr

/-- The error conditions raised by the deployment strategies. -/
inductive DeployError where
  | invalidTargetPath
  | uploadLocationUnknown
  | noRepository
  | noRepositoriesOpen
  | md5sumMissing
deriving DecidableEq, Repr

/-- Outcome of one strategy run: the remote operations issued in order,
the local paths actually transferred, and the raised error if any. -/
structure StrategyResult where
  ops : List RemoteOp
  uploaded : List String
  err : Option DeployError
deriving DecidableEq, Repr

/-! ### Hash Synchronizer (`deployCompare`) -/

/-- The upload/delete sets the hash comparison computes. -/
structure UploadPlan where
  uploads : List Upload
  toDelete : List String
deriving DecidableEq, Repr

/-- Decides whether one local file must be uploaded: true when no remote
entry has the same relative path, or when the hash of the matching entry
differs from the local hash (`md5Local` models `md5Hash(file.uri)`, the
digest of the bytes of the file, keyed by its `fsPath`). -/
def needsUpload (md5Local : String → String) (remoteMD5 : List MD5Entry)
    (file : LocalFile) : Bool :=
  match remoteMD5.find? fun e => e.path == file.path with
  | none => true
  | some remote => remote.md5 != md5Local file.fsPath

/-- The diff loop of `deployCompare`: an upload per local file that
`needsUpload`, targeting `remotePath/relative`, and a deletion per
remote entry whose path matches no local file. -/
def deployComparePlan (remotePath : String) (md5Local : String → String)
    (localFiles : List LocalFile) (remoteMD5 : List MD5Entry) : UploadPlan :=
  { uploads :=
      (localFiles.filter (needsUpload md5Local remoteMD5)).map fun file =>
        { localPath := file.fsPath, remote := remotePath ++ "/" ++ file.path }
    toDelete :=
      (remoteMD5.filter fun remote =>
        !(localFiles.any fun l => remote.path == l.path)).map fun r => r.path }

/-! ### Deployment parameters -/

/-- The `DeploymentParameters` fields the strategies read: the
workspace root (its OS path), the remote target path, and the optional
ignore rule set. -/
structure DeploymentParameters where
  workspaceFsPath : String
  remotePath : String
  ignoreRules : Option IgnoreRules
deriving DecidableEq, Repr

/-! ### Bulk Transfer (`deployAll`) -/

/-- The `validate` callback `deployAll` hands to the directory transfer:
when the relative path is non-empty and ignore rules exist, a file is
included exactly when the rules do not ignore it; otherwise it is
included. -/
def validateLocal (params : DeploymentParameters) (file : LocalFile) : Bool :=
  match params.ignoreRules with
  | some rules => if file.path != "" then !(rules.ignores file.path) else true
  | none => true

/-- Bulk Transfer: when the remote target path is absolute, one
recursive `putDirectory` transfer runs and, per the contract of the transfer
capability, uploads every walked file accepted by `validate`;
otherwise the strategy raises the invalid-target-path error before any
transfer.  `localTree` is the list of files the recursive walk visits,
with their workspace-relative paths. -/
def deployAll (params : DeploymentParameters) (localTree : List LocalFile) :
    StrategyResult :=
  if strStartsWith params.remotePath "/" then
    { ops := [RemoteOp.putDirectory params.workspaceFsPath params.remotePath],
      uploaded := (localTree.filter (validateLocal params)).map fun f => f.fsPath,
      err := none }
  else
    { ops := [], uploaded := [], err := some DeployError.invalidTargetPath }

/-! ### Hash Synchronizer (`deployCompare`), effectful part -/

/-- The remote facts `deployCompare` observes: whether the host has the
`md5sum` utility, and the stdout of the emptiness probe. -/
structure RemoteEnv where
  md5sumAvailable : Bool
  lsWcStdout : String
deriving DecidableEq, Repr

/-- The remote emptiness probe. -/
def lsWcCommand : String := "ls | wc -l"

/-- The remote hash-listing command. -/
def md5Command : String := "/QOpenSys/pkgs/bin/md5sum $(find . -type f)"

/-- The remote empty-directory pruning pass. -/
def pruneCommand : String :=
  "find . -depth -type d -exec rmdir \x7b\x7d + 2>/dev/null"

/-- The single batched remote mkdir command: one guarded `mkdir -p` per
distinct parent directory of the scheduled uploads. -/
def mkdirsCommand (uploads : List Upload) : String :=
  String.intercalate ";"
    ((dedupFirst (uploads.map fun u => posixDirname u.remote)).map
      fun folder => "[ -d " ++ folder ++ " ] || mkdir -p " ++ folder)

/-- Hash Synchronizer: fails when the host lacks `md5sum`; probes the
remote directory for emptiness and, when empty, falls through to
`deployAll`; otherwise lists remote hashes, computes the diff plan, and
issues the deletion, mkdir, upload and pruning operations in order.
`remoteMD5` stands for the parsed stdout of the hash-listing command
(one `MD5Entry` per line, as `toMD5Entry` parses it). -/
def deployCompare (env : RemoteEnv) (params : DeploymentParameters)
    (md5Local : String → String) (localFiles : List LocalFile)
    (remoteMD5 : List MD5Entry) : StrategyResult :=
  if env.md5sumAvailable then
    let wcOp := RemoteOp.shellCommand (some params.remotePath) lsWcCommand
    if env.lsWcStdout == "0" then
      let r := deployAll params localFiles
      { r with ops := wcOp :: r.ops }
    else
      let md5Op := RemoteOp.shellCommand (some params.remotePath) md5Command
      let plan := deployComparePlan params.remotePath md5Local localFiles remoteMD5
      let deleteOps :=
        if plan.toDelete.length != 0 then
          [RemoteOp.shellCommand (some params.remotePath)
            ("rm -f " ++ String.intercalate " " plan.toDelete)]
        else []
      let uploadOps :=
        if plan.uploads.length != 0 then
          [RemoteOp.shellCommand none (mkdirsCommand plan.uploads),
           RemoteOp.putFiles plan.uploads]
        else []
      { ops := [wcOp, md5Op] ++ deleteOps ++ uploadOps ++
          [RemoteOp.shellCommand (some params.remotePath) pruneCommand],
        uploaded := plan.uploads.map fun u => u.localPath,
        err := none }
  else { ops := [], uploaded := [], err := some DeployError.md5sumMissing }

/-! ### Version-Control Differ (`deployGit`) -/

inductive ChangeType where
  | staged
  | working
deriving DecidableEq, BEq, Repr

/-- One change reported by the VCS provider: the OS path of the file, its
workspace-relative path, and its status code (6 is `DELETED`). -/
structure GitChange where
  fsPath : String
  path : String
  status : Nat
deriving DecidableEq, Repr

/-- One repository of the VCS provider. -/
structure Repository where
  rootFsPath : String
  indexChanges : List GitChange
  workingTreeChanges : List GitChange
deriving DecidableEq, Repr

/-- Outcome of a `deployGit` run; `noChanges` records the warning-only
no-op path taken when the filtered change set is empty. -/
structure GitResult where
  ops : List RemoteOp
  uploads : List Upload
  err : Option DeployError
  noChanges : Bool
deriving DecidableEq, Repr

/-- Version-Control Differ: requires open repositories and one rooted at
the workspace; reads staged or working changes, drops status-6 (deleted)
files, and either uploads the rest with one `putFiles` (requiring an
absolute remote path) or, when nothing is left, reports a no-op. -/
def deployGit (repositories : List Repository) (params : DeploymentParameters)
    (changeType : ChangeType) : GitResult :=
  let useStagedChanges := changeType == ChangeType.staged
  if repositories.length != 0 then
    match repositories.find? fun r => r.rootFsPath == params.workspaceFsPath with
    | some repository =>
      let gitFiles :=
        if useStagedChanges then repository.indexChanges
        else repository.workingTreeChanges
      let gitFiles := gitFiles.filter fun change => change.status != 6
      if gitFiles.length != 0 then
        let uploads := gitFiles.map fun change =>
          { localPath := change.fsPath
            remote := posixJoin params.remotePath change.path }
        if strStartsWith params.remotePath "/" then
          { ops := [RemoteOp.putFiles uploads], uploads := uploads,
            err := none, noChanges := false }
        else
          { ops := [], uploads := [],
            err := some DeployError.uploadLocationUnknown, noChanges := false }
      else { ops := [], uploads := [], err := none, noChanges := true }
    | none =>
      { ops := [], uploads := [],
        err := some DeployError.noRepository, noChanges := false }
  else
    { ops := [], uploads := [],
      err := some DeployError.noRepositoriesOpen, noChanges := false }

/-! ### Change Tracker (`buildWatcher` and `workspaceChanges`) -/

/-- The per-workspace pending map, `Map<string fsPath, vscode.Uri>`,
as an insertion-ordered association list. -/
abbrev ChangeMap := List (String × Uri)

/-- JavaScript `Map.prototype.set`: replaces in place or appends. -/
def mapSet (m : ChangeMap) (k : String) (v : Uri) : ChangeMap :=
  if m.any fun e => e.1 == k then
    m.map fun e => if e.1 == k then (k, v) else e
  else m ++ [(k, v)]

/-- JavaScript `Map.prototype.delete`. -/
def mapDelete (m : ChangeMap) (k : String) : ChangeMap :=
  m.filter fun e => e.1 != k

/-- JavaScript `Map.prototype.get`. -/
def mapLookup (m : ChangeMap) (k : String) : Option Uri :=
  (m.find? fun e => e.1 == k).map fun e => e.2

inductive EventKind where
  | changed
  | created
  | deleted
deriving DecidableEq, Repr

/-- One filesystem-watch event: its kind, its uri, whether
`getWorkspaceFolder` resolves the uri to the tracked workspace, and what
the follow-up `fs.stat` reports (`FileType.File`), consulted only on
`created`. -/
structure WatchEvent where
  kind : EventKind
  uri : Uri
  inWorkspace : Bool
  statIsFile : Bool
deriving DecidableEq, Repr

/-- The virtual filesystem schemes the watcher drops. -/
def invalidFs : List String := ["member", "streamfile"]

/-- The guard of `getChangesMap`: the scheme of the event is not virtual, its
OS path does not contain `.git`, and the uri belongs to the workspace. -/
def trackable (e : WatchEvent) : Bool :=
  !(invalidFs.contains e.uri.scheme) && !(strIncludes e.uri.fsPath ".git")
    && e.inWorkspace

/-- One watcher callback: `changed` records the uri, `created` records
it only when the stat confirms a regular file, `deleted` removes the
entry; events failing the `getChangesMap` guard leave the map as is. -/
def applyEvent (m : ChangeMap) (e : WatchEvent) : ChangeMap :=
  if trackable e then
    match e.kind with
    | EventKind.changed => mapSet m e.uri.fsPath e.uri
    | EventKind.created => if e.statIsFile then mapSet m e.uri.fsPath e.uri else m
    | EventKind.deleted => mapDelete m e.uri.fsPath
  else m

/-- Folds a sequence of watch events over the pending map. -/
def applyEvents (m : ChangeMap) (evs : List WatchEvent) : ChangeMap :=
  evs.foldl applyEvent m

/-! ### Changed-files strategy (`deployChanged`) and the orchestrator -/

/-- The upload list `deployChanged` builds from the snapshot of the
pending map (`Array.from(changes.values())`): files passing the ignore
rules when a relative path and rules exist, otherwise passing the
crude no-dot-in-basename directory test; `toRel` models the external
`path.relative` against the workspace root. -/
def deployChangedUploads (toRel : String → String)
    (params : DeploymentParameters) (changes : ChangeMap) : List Upload :=
  let changedFiles := (changes.map fun e => e.2).filter fun uri =>
    let relative := toRel uri.path
    match params.ignoreRules with
    | some rules =>
      if relative != "" then !(rules.ignores relative)
      else !(strIncludes (posixBasename uri.path) ".")
    | none => !(strIncludes (posixBasename uri.path) ".")
  changedFiles.map fun uri =>
    { localPath := uri.fsPath, remote := posixJoin params.remotePath (toRel uri.path) }

/-- Outcome of one `deploy` invocation with the `changed` method. -/
structure ChangedRun where
  success : Bool
  uploads : List Upload
  finalPending : ChangeMap
deriving DecidableEq, Repr

/-- Models one `deploy` invocation with the `changed` method.
`pending` is the live pending map when `deployChanged` snapshots it;
`midEvents` are the watcher events delivered to the live map between
that snapshot and the end of the run; `transferFails` abstracts any
error raised by the remote operations (caught by `deploy`, which then
reports failure without clearing).  On success `deploy` clears the live
map; on failure it leaves it untouched. -/
def deployChangedRun (toRel : String → String) (params : DeploymentParameters)
    (pending : ChangeMap) (midEvents : List WatchEvent)
    (transferFails : Bool) : ChangedRun :=
  let uploads :=
    if pending.length != 0 then deployChangedUploads toRel params pending else []
  let live := applyEvents pending midEvents
  if transferFails then
    { success := false, uploads := uploads, finalPending := live }
  else
    { success := true, uploads := uploads, finalPending := [] }

/-! ### The orchestrator (`deploy`) over every method -/

/-- The five deployment methods of the `switch` in `deploy`
(`DeploymentMethod` in the source typings). -/
inductive DeploymentMethod where
  | unstaged
  | staged
  | changed
  | compare
  | all
deriving DecidableEq, Repr

/-- The precondition error the strategy selected by the `switch` in
`deploy` raises, if any: the git strategies can fail to find a
repository or an absolute target, `deployCompare` needs `md5sum`,
`deployAll` needs an absolute target, and `deployChanged` raises no
precondition error of its own. -/
def methodErr (method : DeploymentMethod) (repositories : List Repository)
    (env : RemoteEnv) (params : DeploymentParameters)
    (md5Local : String → String) (localFiles : List LocalFile)
    (remoteMD5 : List MD5Entry) : Option DeployError :=
  match method with
  | DeploymentMethod.unstaged =>
    (deployGit repositories params ChangeType.working).err
  | DeploymentMethod.staged =>
    (deployGit repositories params ChangeType.staged).err
  | DeploymentMethod.changed => none
  | DeploymentMethod.compare =>
    (deployCompare env params md5Local localFiles remoteMD5).err
  | DeploymentMethod.all => (deployAll params localFiles).err

/-- Outcome of one `deploy` invocation, whatever the method. -/
structure DeployRun where
  success : Bool
  finalPending : ChangeMap
deriving DecidableEq, Repr

/-- Models one `deploy` invocation for any method: the selected strategy
runs inside the `try` block, and the run succeeds exactly when nothing
is thrown — neither a strategy precondition error (`methodErr`) nor a
runtime remote-command or transfer failure (abstracted by
`transferFails`).  On success `deploy` clears the live pending map of
the workspace (which the watcher may have extended with `midEvents`
meanwhile); on failure the `catch` block leaves it untouched. -/
def deploy (method : DeploymentMethod) (repositories : List Repository)
    (env : RemoteEnv) (params : DeploymentParameters)
    (md5Local : String → String) (localFiles : List LocalFile)
    (remoteMD5 : List MD5Entry) (pending : ChangeMap)
    (midEvents : List WatchEvent) (transferFails : Bool) : DeployRun :=
  if transferFails ||
      (methodErr method repositories env params md5Local localFiles
        remoteMD5).isSome then
    { success := false, finalPending := applyEvents pending midEvents }
  else
    { success := true, finalPending := [] }

/-! ### Lemmas about the hash-diff plan -/

theorem needsUpload_iff (md5Local : String → String) (remoteMD5 : List MD5Entry)
    (file : LocalFile) :
    needsUpload md5Local remoteMD5 file = true ↔
      ((remoteMD5.find? fun e => e.path == file.path) = none ∨
        ∃ r, (remoteMD5.find? fun e => e.path == file.path) = some r ∧
          r.md5 ≠ md5Local file.fsPath) := by
  unfold needsUpload
  cases h : remoteMD5.find? fun e => e.path == file.path with
  | none => simp
  | some r => simp [bne_iff_ne]

/-- C1: the Hash Synchronizer diff schedules an upload for exactly the
local files whose relative path has no remote hash entry or whose hash
differs from the found entry, and a deletion for exactly the remote
entries whose path matches no local file; on the concrete scenario with
local files `a.txt` (hash h1) and `b.txt` (hash h2) and remote entries
`a.txt` (h1) and `c.txt` (h3), the plan uploads exactly `b.txt` and
deletes exactly `c.txt`. -/
theorem deployCompare_plan_characterization
    (remotePath : String) (md5Local : String → String)
    (localFiles : List LocalFile) (remoteMD5 : List MD5Entry) :
    (∀ u : Upload,
      u ∈ (deployComparePlan remotePath md5Local localFiles remoteMD5).uploads ↔
      ∃ file ∈ localFiles,
        (((remoteMD5.find? fun e => e.path == file.path) = none ∨
          ∃ r, (remoteMD5.find? fun e => e.path == file.path) = some r ∧
            r.md5 ≠ md5Local file.fsPath)) ∧
        u = { localPath := file.fsPath,
              remote := remotePath ++ "/" ++ file.path }) ∧
    (∀ p : String,
      p ∈ (deployComparePlan remotePath md5Local localFiles remoteMD5).toDelete ↔
      ∃ e ∈ remoteMD5, e.path = p ∧ ∀ l ∈ localFiles, l.path ≠ p) ∧
    deployComparePlan "/deploy"
        (fun fs => if fs = "/w/a.txt" then "h1" else "h2")
        [{ fsPath := "/w/a.txt", path := "a.txt" },
         { fsPath := "/w/b.txt", path := "b.txt" }]
        [{ path := "a.txt", md5 := "h1" }, { path := "c.txt", md5 := "h3" }] =
      { uploads := [{ localPath := "/w/b.txt", remote := "/deploy/b.txt" }],
        toDelete := ["c.txt"] } := by
  refine ⟨?_, ?_, by decide⟩
  · intro u
    unfold deployComparePlan
    simp only [List.mem_map, List.mem_filter]
    constructor
    · rintro ⟨file, ⟨hmem, hneed⟩, hu⟩
      exact ⟨file, hmem, (needsUpload_iff md5Local remoteMD5 file).mp hneed, hu.symm⟩
    · rintro ⟨file, hmem, hneed, hu⟩
      exact ⟨file, ⟨hmem, (needsUpload_iff md5Local remoteMD5 file).mpr hneed⟩, hu.symm⟩
  · intro p
    unfold deployComparePlan
    constructor
    · intro hp
      obtain ⟨e, he, rfl⟩ := List.mem_map.mp hp
      obtain ⟨hmem, hq⟩ := List.mem_filter.mp he
      rw [Bool.not_eq_true', List.any_eq_false] at hq
      refine ⟨e, hmem, rfl, ?_⟩
      intro l hl hlp
      exact absurd (beq_iff_eq.mpr hlp.symm) (hq l hl)
    · rintro ⟨e, hmem, hp, hnolocal⟩
      apply List.mem_map.mpr
      refine ⟨e, List.mem_filter.mpr ⟨hmem, ?_⟩, hp⟩
      rw [Bool.not_eq_true', List.any_eq_false]
      intro l hl hbeq
      exact hnolocal l hl (hp ▸ (beq_iff_eq.mp hbeq).symm)

/-- Witness for C1: the concrete scenario instance of the deletion
characterization. -/
theorem deployCompare_plan_characterization_witness :
    "c.txt" ∈ (deployComparePlan "/deploy"
        (fun fs => if fs = "/w/a.txt" then "h1" else "h2")
        [{ fsPath := "/w/a.txt", path := "a.txt" },
         { fsPath := "/w/b.txt", path := "b.txt" }]
        [{ path := "a.txt", md5 := "h1" }, { path := "c.txt", md5 := "h3" }]).toDelete :=
  ((deployCompare_plan_characterization "/deploy"
      (fun fs => if fs = "/w/a.txt" then "h1" else "h2")
      [{ fsPath := "/w/a.txt", path := "a.txt" },
       { fsPath := "/w/b.txt", path := "b.txt" }]
      [{ path := "a.txt", md5 := "h1" }, { path := "c.txt", md5 := "h3" }]).2.1
    "c.txt").mpr (by decide)

/-- C6: identical relative-path to content-hash mappings on both sides
give an empty plan: no uploads and no deletions. -/
theorem deployCompare_idempotent
    (remotePath : String) (md5Local : String → String)
    (localFiles : List LocalFile) (remoteMD5 : List MD5Entry)
    (hmatch : ∀ f ∈ localFiles,
      ∃ r, (remoteMD5.find? fun e => e.path == f.path) = some r ∧
        r.md5 = md5Local f.fsPath)
    (hcover : ∀ e ∈ remoteMD5, ∃ f ∈ localFiles, f.path = e.path) :
    deployComparePlan remotePath md5Local localFiles remoteMD5 =
      { uploads := [], toDelete := [] } := by
  unfold deployComparePlan
  have huploads : localFiles.filter (needsUpload md5Local remoteMD5) = [] := by
    rw [List.filter_eq_nil_iff]
    intro f hf
    obtain ⟨r, hr, hmd5⟩ := hmatch f hf
    unfold needsUpload
    rw [hr]
    simp [hmd5]
  have hdelete : (remoteMD5.filter fun remote =>
      !(localFiles.any fun l => remote.path == l.path)) = [] := by
    rw [List.filter_eq_nil_iff]
    intro e he
    obtain ⟨f, hf, hfp⟩ := hcover e he
    simp only [Bool.not_eq_true', Bool.not_eq_false, List.any_eq_true]
    exact ⟨f, hf, beq_iff_eq.mpr hfp.symm⟩
  rw [huploads, hdelete]
  rfl

/-- Witness for C6: a one-file tree equal on both sides produces the
empty plan. -/
theorem deployCompare_idempotent_witness :
    deployComparePlan "/deploy" (fun _ => "h1")
        [{ fsPath := "/w/a.txt", path := "a.txt" }]
        [{ path := "a.txt", md5 := "h1" }] =
      { uploads := [], toDelete := [] } :=
  deployCompare_idempotent "/deploy" (fun _ => "h1")
    [{ fsPath := "/w/a.txt", path := "a.txt" }]
    [{ path := "a.txt", md5 := "h1" }]
    (by decide) (by decide)

/-- C2: when the remote emptiness probe reports `0`, the Hash
Synchronizer delegates to Bulk Transfer (same outcome, with only the
probe prepended to the operations), never issues the remote
hash-comparison command, and (for an absolute target) uploads every
non-ignored local file. -/
theorem deployCompare_empty_remote_delegates
    (env : RemoteEnv) (params : DeploymentParameters)
    (md5Local : String → String) (localFiles : List LocalFile)
    (remoteMD5 : List MD5Entry)
    (havail : env.md5sumAvailable = true) (hempty : env.lsWcStdout = "0") :
    (deployCompare env params md5Local localFiles remoteMD5 =
      { deployAll params localFiles with
          ops := RemoteOp.shellCommand (some params.remotePath) lsWcCommand ::
            (deployAll params localFiles).ops }) ∧
    (∀ d : Option String,
      RemoteOp.shellCommand d md5Command ∉
        (deployCompare env params md5Local localFiles remoteMD5).ops) ∧
    (strStartsWith params.remotePath "/" = true →
      (deployCompare env params md5Local localFiles remoteMD5).uploaded =
        (localFiles.filter (validateLocal params)).map fun f => f.fsPath) := by
  have hmain : deployCompare env params md5Local localFiles remoteMD5 =
      { deployAll params localFiles with
        ops := RemoteOp.shellCommand (some params.remotePath) lsWcCommand ::
          (deployAll params localFiles).ops } := by
    unfold deployCompare
    rw [havail, hempty]
    rfl
  have hne : md5Command ≠ lsWcCommand := by decide
  refine ⟨hmain, ?_, ?_⟩
  · intro d hmem
    rw [hmain] at hmem
    have hops : ({ deployAll params localFiles with
        ops := RemoteOp.shellCommand (some params.remotePath) lsWcCommand ::
          (deployAll params localFiles).ops } : StrategyResult).ops =
        RemoteOp.shellCommand (some params.remotePath) lsWcCommand ::
          (deployAll params localFiles).ops := rfl
    rw [hops] at hmem
    rcases List.mem_cons.mp hmem with h | h
    · injection h with h1 h2
      exact hne h2
    · unfold deployAll at h
      split at h
      · exact RemoteOp.noConfusion (List.mem_singleton.mp h)
      · exact (List.not_mem_nil _) h
  · intro habs
    rw [hmain]
    show (deployAll params localFiles).uploaded = _
    unfold deployAll
    rw [if_pos habs]

/-- Witness for C2: the full delegation equation at a concrete empty
remote. -/
theorem deployCompare_empty_remote_delegates_witness :
    deployCompare { md5sumAvailable := true, lsWcStdout := "0" }
        { workspaceFsPath := "/w", remotePath := "/deploy", ignoreRules := none }
        (fun _ => "h1") [{ fsPath := "/w/a.txt", path := "a.txt" }] [] =
      { deployAll
          { workspaceFsPath := "/w", remotePath := "/deploy", ignoreRules := none }
          [{ fsPath := "/w/a.txt", path := "a.txt" }] with
        ops := RemoteOp.shellCommand (some "/deploy") lsWcCommand ::
          (deployAll
            { workspaceFsPath := "/w", remotePath := "/deploy", ignoreRules := none }
            [{ fsPath := "/w/a.txt", path := "a.txt" }]).ops } :=
  (deployCompare_empty_remote_delegates
    { md5sumAvailable := true, lsWcStdout := "0" }
    { workspaceFsPath := "/w", remotePath := "/deploy", ignoreRules := none }
    (fun _ => "h1") [{ fsPath := "/w/a.txt", path := "a.txt" }] []
    rfl rfl).1

/-- C8: Bulk Transfer on a non-absolute remote target path fails with
the invalid-target-path error and issues no operation at all: the
directory-transfer capability is never invoked and nothing is
uploaded. -/
theorem deployAll_invalid_target
    (params : DeploymentParameters) (localTree : List LocalFile)
    (h : strStartsWith params.remotePath "/" = false) :
    deployAll params localTree =
      { ops := [], uploaded := [],
        err := some DeployError.invalidTargetPath } := by
  unfold deployAll
  rw [if_neg (by rw [h]; exact Bool.false_ne_true)]

/-- Witness for C8: the target path `relative/path` of the scenario. -/
theorem deployAll_invalid_target_witness :
    deployAll
        { workspaceFsPath := "/w", remotePath := "relative/path",
          ignoreRules := none }
        [{ fsPath := "/w/a.txt", path := "a.txt" }] =
      { ops := [], uploaded := [],
        err := some DeployError.invalidTargetPath } :=
  deployAll_invalid_target
    { workspaceFsPath := "/w", remotePath := "relative/path",
      ignoreRules := none }
    [{ fsPath := "/w/a.txt", path := "a.txt" }] (by decide)

/-- C5: every upload of a Version-Control Differ run comes from a
reported change whose status differs from the fixed deleted code 6, the
run only ever issues `putFiles` operations (never a deletion), the
concrete one-deleted-one-modified scenario uploads exactly the modified
file, and an all-deleted report is a no-op, not an error. -/
theorem deployGit_filters_deleted
    (repositories : List Repository) (params : DeploymentParameters)
    (changeType : ChangeType) :
    (∀ u ∈ (deployGit repositories params changeType).uploads,
      ∃ repository,
        (repositories.find? fun r => r.rootFsPath == params.workspaceFsPath) =
          some repository ∧
        ∃ change ∈ (if changeType == ChangeType.staged then
            repository.indexChanges else repository.workingTreeChanges),
          change.status ≠ 6 ∧
          u = { localPath := change.fsPath,
                remote := posixJoin params.remotePath change.path }) ∧
    (∀ op ∈ (deployGit repositories params changeType).ops,
      ∃ uploads, op = RemoteOp.putFiles uploads) ∧
    deployGit
        [{ rootFsPath := "/w", indexChanges := [],
           workingTreeChanges :=
             [{ fsPath := "/w/del.txt", path := "del.txt", status := 6 },
              { fsPath := "/w/mod.txt", path := "mod.txt", status := 5 }] }]
        { workspaceFsPath := "/w", remotePath := "/deploy", ignoreRules := none }
        ChangeType.working =
      { ops := [RemoteOp.putFiles
          [{ localPath := "/w/mod.txt", remote := "/deploy/mod.txt" }]],
        uploads := [{ localPath := "/w/mod.txt", remote := "/deploy/mod.txt" }],
        err := none, noChanges := false } ∧
    deployGit
        [{ rootFsPath := "/w", indexChanges := [],
           workingTreeChanges :=
             [{ fsPath := "/w/del.txt", path := "del.txt", status := 6 }] }]
        { workspaceFsPath := "/w", remotePath := "/deploy", ignoreRules := none }
        ChangeType.working =
      { ops := [], uploads := [], err := none, noChanges := true } := by
  refine ⟨?_, ?_, by decide, by decide⟩
  · intro u hu
    simp only [deployGit] at hu
    split at hu
    · split at hu
      next repository hfind =>
        split at hu
        next hstaged =>
          split at hu
          next hlen =>
            split at hu
            next habs =>
              obtain ⟨change, hc, hueq⟩ := List.mem_map.mp hu
              obtain ⟨hcmem, hstat⟩ := List.mem_filter.mp hc
              refine ⟨repository, hfind, change, ?_, ?_, hueq.symm⟩
              · rw [if_pos hstaged]
                exact hcmem
              · simpa [bne_iff_ne] using hstat
            next habs => exact absurd hu (List.not_mem_nil u)
          next hlen => exact absurd hu (List.not_mem_nil u)
        next hstaged =>
          split at hu
          next hlen =>
            split at hu
            next habs =>
              obtain ⟨change, hc, hueq⟩ := List.mem_map.mp hu
              obtain ⟨hcmem, hstat⟩ := List.mem_filter.mp hc
              refine ⟨repository, hfind, change, ?_, ?_, hueq.symm⟩
              · rw [if_neg hstaged]
                exact hcmem
              · simpa [bne_iff_ne] using hstat
            next habs => exact absurd hu (List.not_mem_nil u)
          next hlen => exact absurd hu (List.not_mem_nil u)
      next hfind => exact absurd hu (List.not_mem_nil u)
    · exact absurd hu (List.not_mem_nil u)
  · intro op hop
    simp only [deployGit] at hop
    split at hop
    · split at hop
      next repository hfind =>
        split at hop
        next hstaged =>
          split at hop
          next hlen =>
            split at hop
            next habs => exact ⟨_, List.mem_singleton.mp hop⟩
            next habs => exact absurd hop (List.not_mem_nil op)
          next hlen => exact absurd hop (List.not_mem_nil op)
        next hstaged =>
          split at hop
          next hlen =>
            split at hop
            next habs => exact ⟨_, List.mem_singleton.mp hop⟩
            next habs => exact absurd hop (List.not_mem_nil op)
          next hlen => exact absurd hop (List.not_mem_nil op)
      next hfind => exact absurd hop (List.not_mem_nil op)
    · exact absurd hop (List.not_mem_nil op)

/-- Witness for C5: the one-deleted-one-modified scenario instance. -/
theorem deployGit_filters_deleted_witness :
    deployGit
        [{ rootFsPath := "/w", indexChanges := [],
           workingTreeChanges :=
             [{ fsPath := "/w/del.txt", path := "del.txt", status := 6 },
              { fsPath := "/w/mod.txt", path := "mod.txt", status := 5 }] }]
        { workspaceFsPath := "/w", remotePath := "/deploy", ignoreRules := none }
        ChangeType.working =
      { ops := [RemoteOp.putFiles
          [{ localPath := "/w/mod.txt", remote := "/deploy/mod.txt" }]],
        uploads := [{ localPath := "/w/mod.txt", remote := "/deploy/mod.txt" }],
        err := none, noChanges := false } :=
  (deployGit_filters_deleted []
    { workspaceFsPath := "/w", remotePath := "/deploy", ignoreRules := none }
    ChangeType.working).2.2.1

/-! ### Lemmas about the Ignore Filter -/

theorem data_lowerStr (s : String) : (lowerStr s).data = lowerList s.data := rfl

theorem ignorecase_buildIgnoreRules (g : Option (List String)) :
    (buildIgnoreRules g).ignorecase = true := by
  cases g <;> rfl

theorem ite_cond_true {α : Sort u} (a b : α) :
    (if true = true then a else b) = a := rfl

theorem map_lowerList_map_lowerList (l : List (List Char)) :
    (l.map lowerList).map lowerList = l.map lowerList := by
  rw [List.map_map]
  apply List.map_congr_left
  intro x _
  exact lowerList_lowerList x

/-- Matching is insensitive to the case of the path whenever the rule
set was built with the `ignorecase` option. -/
theorem ignores_lowerStr (rules : IgnoreRules) (hcase : rules.ignorecase = true)
    (p : String) : rules.ignores (lowerStr p) = rules.ignores p := by
  unfold IgnoreRules.ignores
  rw [hcase, ite_cond_true, ite_cond_true, data_lowerStr, splitSegs_lowerList,
    map_lowerList_map_lowerList]

/-- Walking any all-positive rule list from an ignored verdict keeps the
verdict ignored. -/
theorem foldl_ruleStep_true (ic : Bool) (segs : List (List Char))
    (pats : List IgnorePattern) (hpos : ∀ pat ∈ pats, pat.negated = false) :
    List.foldl (ruleStep ic segs) true pats = true := by
  induction pats with
  | nil => rfl
  | cons q rest ih =>
    have hq : ruleStep ic segs true q = true := by
      unfold ruleStep
      rw [hpos q (List.mem_cons_self q rest), Bool.not_false, ite_self]
    rw [List.foldl_cons, hq]
    exact ih fun pat hp => hpos pat (List.mem_cons_of_mem q hp)

/-- If every rule is positive and some rule matches, the walk ends
ignored, whatever the starting verdict. -/
theorem foldl_ruleStep_of_match (ic : Bool) (segs : List (List Char))
    (pats : List IgnorePattern) (hpos : ∀ pat ∈ pats, pat.negated = false)
    (pat : IgnorePattern) (hmem : pat ∈ pats)
    (hmatch : patMatches pat.anchored
      (if ic then pat.segs.map lowerList else pat.segs) segs = true) :
    ∀ init : Bool, List.foldl (ruleStep ic segs) init pats = true := by
  induction pats with
  | nil => exact absurd hmem (List.not_mem_nil pat)
  | cons q rest ih =>
    intro init
    rw [List.foldl_cons]
    rcases List.mem_cons.mp hmem with rfl | hmem2
    · have hstep : ruleStep ic segs init pat = true := by
        unfold ruleStep
        rw [if_pos hmatch, hpos pat (List.mem_cons_self pat rest), Bool.not_false]
      rw [hstep]
      exact foldl_ruleStep_true ic segs rest
        fun r hr => hpos r (List.mem_cons_of_mem _ hr)
    · exact ih (fun r hr => hpos r (List.mem_cons_of_mem _ hr)) hmem2 _

/-- A positive rule placed last decides the verdict whenever it
matches, whatever came before it. -/
theorem foldl_ruleStep_last (ic : Bool) (segs : List (List Char))
    (pats : List IgnorePattern) (init : Bool) (pat : IgnorePattern)
    (hneg : pat.negated = false)
    (hmatch : patMatches pat.anchored
      (if ic then pat.segs.map lowerList else pat.segs) segs = true) :
    List.foldl (ruleStep ic segs) init (pats ++ [pat]) = true := by
  rw [List.foldl_append]
  show ruleStep ic segs _ pat = true
  unfold ruleStep
  rw [if_pos hmatch, hneg, Bool.not_false]

/-- An un-anchored single-component rule matches every path one of
whose components lower-cases to its (already lower-case, wildcard-free)
component. -/
theorem patMatches_component (pat : IgnorePattern)
    (hanch : pat.anchored = false) (core : List Char)
    (hcore : pat.segs.map lowerList = [core]) (hstar : core ≠ ['*', '*'])
    (hself : globMatch core core = true) (p : String) (seg : List Char)
    (hmem : seg ∈ splitSegs p.data) (hlow : lowerList seg = core) :
    patMatches pat.anchored (pat.segs.map lowerList)
      ((splitSegs p.data).map lowerList) = true := by
  rw [hanch, hcore]
  show (List.tails ((splitSegs p.data).map lowerList)).any
      (fun t => matchSegs [core] t) = true
  obtain ⟨pre, post, hsplit⟩ := List.append_of_mem hmem
  rw [List.any_eq_true]
  refine ⟨lowerList seg :: post.map lowerList, ?_, ?_⟩
  · rw [List.mem_tails]
    refine ⟨pre.map lowerList, ?_⟩
    rw [hsplit]
    simp
  · show matchSegs [core] (lowerList seg :: post.map lowerList) = true
    unfold matchSegs
    rw [if_neg hstar, hlow]
    show (globMatch core core && matchSegs [] (List.map lowerList post)) = true
    rw [hself]
    rfl

/-- Counterexample to C7: the built rule sets do NOT always ignore the
VCS metadata directory — the base `.git` rule is installed before the
user rules, so a later negation line in the ignore file re-includes it
under the last-rule-wins precedence the spec states; with no user rules
the same path is ignored. -/
theorem ignoreRules_dotgit_negation_counterexample :
    (buildIgnoreRules none).ignores ".git/config" = true ∧
    (buildIgnoreRules (some ["!.git"])).ignores ".git/config" = false := by
  constructor <;> decide

/-- C7 amended: for every rule set the module builds, matching is
case-insensitive; the ignore file itself is always ignored whenever an
ignore file exists (its rule is installed last, so user rules cannot
override it); any path with a `.git` component is ignored provided no
rule of the set is a negation rule (in particular always when no ignore
file was found); and when no ignore file is found the rule set is
exactly the built-in default. -/
theorem ignoreRules_properties
    (gitignoreContent : Option (List String)) (p : String) :
    ((buildIgnoreRules gitignoreContent).ignores (lowerStr p) =
      (buildIgnoreRules gitignoreContent).ignores p) ∧
    (∀ lines, gitignoreContent = some lines →
      (∃ seg ∈ splitSegs p.data, lowerList seg = ".gitignore".data) →
      (buildIgnoreRules gitignoreContent).ignores p = true) ∧
    ((∀ pat ∈ (buildIgnoreRules gitignoreContent).patterns,
        (parsePattern pat).negated = false) →
      (∃ seg ∈ splitSegs p.data, lowerList seg = ".git".data) →
      (buildIgnoreRules gitignoreContent).ignores p = true) ∧
    buildIgnoreRules none = { ignorecase := true, patterns := [".git"] } := by
  refine ⟨ignores_lowerStr _ (ignorecase_buildIgnoreRules gitignoreContent) p,
    ?_, ?_, rfl⟩
  · rintro lines rfl ⟨seg, hseg, hlow⟩
    unfold IgnoreRules.ignores
    rw [ignorecase_buildIgnoreRules, ite_cond_true]
    have hpat : (buildIgnoreRules (some lines)).patterns =
        (".git" :: lines) ++ ["**/.gitignore"] := by
      simp [buildIgnoreRules]
    rw [hpat, List.filter_append, List.map_append]
    rw [show List.map parsePattern (List.filter activeRule ["**/.gitignore"]) =
      [parsePattern "**/.gitignore"] from rfl]
    refine foldl_ruleStep_last true _ _ false (parsePattern "**/.gitignore")
      rfl ?_
    exact patMatches_component (parsePattern "**/.gitignore") rfl
      ".gitignore".data (by decide) (by decide) (by decide) p seg hseg hlow
  · intro hpos ⟨seg, hseg, hlow⟩
    unfold IgnoreRules.ignores
    rw [ignorecase_buildIgnoreRules, ite_cond_true]
    refine foldl_ruleStep_of_match true _ _ ?_ (parsePattern ".git") ?_ ?_ false
    · intro q hq
      obtain ⟨line, hline, rfl⟩ := List.mem_map.mp hq
      exact hpos line (List.mem_filter.mp hline).1
    · apply List.mem_map.mpr
      refine ⟨".git", List.mem_filter.mpr ⟨?_, rfl⟩, rfl⟩
      cases gitignoreContent <;> simp [buildIgnoreRules]
    · exact patMatches_component (parsePattern ".git") rfl ".git".data
        (by decide) (by decide) (by decide) p seg hseg hlow

/-- Witness for C7: with no ignore file (hence no negation rule), a
path inside the VCS metadata directory is ignored. -/
theorem ignoreRules_properties_witness :
    (buildIgnoreRules none).ignores ".git/config" = true :=
  (ignoreRules_properties none ".git/config").2.2.1 (by decide) (by decide)

/-! ### Lemmas about the Change Tracker -/

theorem inv_mapSet {P : String × Uri → Prop} {m : ChangeMap} {k : String}
    {v : Uri} (hm : ∀ entry ∈ m, P entry) (hkv : P (k, v)) :
    ∀ entry ∈ mapSet m k v, P entry := by
  unfold mapSet
  split
  · intro entry he
    obtain ⟨e0, he0, heq⟩ := List.mem_map.mp he
    rw [← heq]
    split
    · exact hkv
    · exact hm e0 he0
  · intro entry he
    rcases List.mem_append.mp he with h | h
    · exact hm entry h
    · rw [List.mem_singleton.mp h]
      exact hkv

theorem inv_mapDelete {P : String × Uri → Prop} {m : ChangeMap} {k : String}
    (hm : ∀ entry ∈ m, P entry) : ∀ entry ∈ mapDelete m k, P entry := by
  intro entry he
  exact hm entry (List.mem_filter.mp he).1

theorem inv_applyEvent {P : String × Uri → Prop} {m : ChangeMap}
    (e : WatchEvent) (hm : ∀ entry ∈ m, P entry)
    (he : trackable e = true → P (e.uri.fsPath, e.uri)) :
    ∀ entry ∈ applyEvent m e, P entry := by
  unfold applyEvent
  split
  next htr =>
    split
    · exact inv_mapSet hm (he htr)
    · split
      · exact inv_mapSet hm (he htr)
      · exact hm
    · exact inv_mapDelete hm
  next htr => exact hm

theorem inv_applyEvents {P : String × Uri → Prop} (evs : List WatchEvent)
    (hP : ∀ e : WatchEvent, trackable e = true → P (e.uri.fsPath, e.uri)) :
    ∀ m : ChangeMap, (∀ entry ∈ m, P entry) →
      ∀ entry ∈ applyEvents m evs, P entry := by
  induction evs with
  | nil => intro m hm; exact hm
  | cons e evs ih =>
    intro m hm
    exact ih (applyEvent m e) (inv_applyEvent e hm (hP e))

theorem mapLookup_mapDelete (m : ChangeMap) (k : String) :
    mapLookup (mapDelete m k) k = none := by
  unfold mapLookup mapDelete
  have hfind : ((m.filter fun e => e.1 != k).find? fun e => e.1 == k) = none := by
    rw [List.find?_eq_none]
    intro x hx
    have hne := (List.mem_filter.mp hx).2
    simp only [bne_iff_ne, ne_eq] at hne
    simp [hne]
  rw [hfind]
  rfl

/-- C9: over any watch-event sequence, the pending map holds no path
containing `.git` and no virtual-scheme uri; a `created` event whose
stat does not confirm a regular file changes nothing; and a tracked
`deleted` event leaves no pending entry for its path. -/
theorem changeTracker_invariants (evs : List WatchEvent) :
    (∀ entry ∈ applyEvents [] evs,
      strIncludes entry.1 ".git" = false ∧
      invalidFs.contains entry.2.scheme = false) ∧
    (∀ (m : ChangeMap) (e : WatchEvent), e.kind = EventKind.created →
      e.statIsFile = false → applyEvent m e = m) ∧
    (∀ (m : ChangeMap) (e : WatchEvent), e.kind = EventKind.deleted →
      trackable e = true →
      mapLookup (applyEvent m e) e.uri.fsPath = none) := by
  refine ⟨?_, ?_, ?_⟩
  · intro entry hentry
    have hinv := @inv_applyEvents
      (fun entry => entry.1 = entry.2.fsPath ∧
        strIncludes entry.2.fsPath ".git" = false ∧
        invalidFs.contains entry.2.scheme = false)
      evs ?_ [] (fun x hx => absurd hx (List.not_mem_nil x)) entry hentry
    · obtain ⟨hkey, hgit, hscheme⟩ := hinv
      rw [hkey]
      exact ⟨hgit, hscheme⟩
    · intro e htr
      have h := htr
      unfold trackable at h
      simp only [Bool.and_eq_true, Bool.not_eq_true'] at h
      exact ⟨rfl, h.1.2, h.1.1⟩
  · intro m e hkind hstat
    unfold applyEvent
    split
    · rw [hkind]
      simp [hstat]
    · rfl
  · intro m e hkind htr
    unfold applyEvent
    rw [if_pos htr, hkind]
    exact mapLookup_mapDelete m e.uri.fsPath

/-- Witness for C9: a directory-creation event (stat not a file) leaves
the empty pending map empty. -/
theorem changeTracker_invariants_witness :
    applyEvent []
      { kind := EventKind.created,
        uri := { scheme := "file", fsPath := "/w/newdir", path := "/w/newdir" },
        inWorkspace := true, statIsFile := false } = [] :=
  (changeTracker_invariants []).2.1 []
    { kind := EventKind.created,
      uri := { scheme := "file", fsPath := "/w/newdir", path := "/w/newdir" },
      inWorkspace := true, statIsFile := false } rfl rfl

/-- C10: any watch event whose OS path contains `.git` anywhere as a
substring is dropped entirely (the pending map is unchanged), and the
path `/w/notes.gitbook` is such a path even though it is not under a
`.git` directory, so a file of that name can never be uploaded by the
changed strategy. -/
theorem watcher_drops_dotgit :
    (∀ (m : ChangeMap) (e : WatchEvent),
      strIncludes e.uri.fsPath ".git" = true → applyEvent m e = m) ∧
    strIncludes "/w/notes.gitbook" ".git" = true := by
  refine ⟨?_, by decide⟩
  intro m e h
  have htr : trackable e = false := by
    unfold trackable
    rw [h]
    simp
  simp [applyEvent, htr]

/-- Witness for C10: a change event for `/w/notes.gitbook` leaves the
empty pending map empty. -/
theorem watcher_drops_dotgit_witness :
    applyEvent []
      { kind := EventKind.changed,
        uri := { scheme := "file", fsPath := "/w/notes.gitbook",
                 path := "/w/notes.gitbook" },
        inWorkspace := true, statIsFile := true } = [] :=
  watcher_drops_dotgit.1 []
    { kind := EventKind.changed,
      uri := { scheme := "file", fsPath := "/w/notes.gitbook",
               path := "/w/notes.gitbook" },
      inWorkspace := true, statIsFile := true } (by decide)

/-- Counterexample to C3: a watch event that arrives mid-deployment
(after the snapshot) is recorded in the live pending map, yet when the
deployment completes successfully the final `clear()` discards it too,
so it is NOT still pending afterwards and the next changed run will not
pick it up. -/
theorem changed_midEvent_cleared_counterexample :
    (deployChangedRun (fun p => p)
        { workspaceFsPath := "/w", remotePath := "/deploy", ignoreRules := none }
        []
        [{ kind := EventKind.changed,
           uri := { scheme := "file", fsPath := "/w/new.txt", path := "/w/new.txt" },
           inWorkspace := true, statIsFile := true }]
        false).success = true ∧
    applyEvents []
      [{ kind := EventKind.changed,
         uri := { scheme := "file", fsPath := "/w/new.txt", path := "/w/new.txt" },
         inWorkspace := true, statIsFile := true }] =
      [("/w/new.txt",
        { scheme := "file", fsPath := "/w/new.txt", path := "/w/new.txt" })] ∧
    (deployChangedRun (fun p => p)
        { workspaceFsPath := "/w", remotePath := "/deploy", ignoreRules := none }
        []
        [{ kind := EventKind.changed,
           uri := { scheme := "file", fsPath := "/w/new.txt", path := "/w/new.txt" },
           inWorkspace := true, statIsFile := true }]
        false).finalPending = [] :=
  ⟨rfl, by decide, rfl⟩

/-- C3 amended: the upload set of a changed-strategy run is computed
from the snapshot only, so mid-deployment events are never consumed by
the current run, and every upload stems from a snapshot entry; a failed
run leaves the mid-deployment events pending, but the clearing done by a successful run
also discards them. -/
theorem changed_run_snapshot_amended
    (toRel : String → String) (params : DeploymentParameters)
    (pending : ChangeMap) (midEvents : List WatchEvent)
    (transferFails : Bool) :
    ((deployChangedRun toRel params pending midEvents transferFails).uploads =
      (deployChangedRun toRel params pending [] transferFails).uploads) ∧
    (∀ u ∈ (deployChangedRun toRel params pending midEvents transferFails).uploads,
      ∃ entry ∈ pending, u.localPath = entry.2.fsPath) ∧
    (transferFails = true →
      (deployChangedRun toRel params pending midEvents transferFails).finalPending =
        applyEvents pending midEvents) ∧
    (transferFails = false →
      (deployChangedRun toRel params pending midEvents transferFails).finalPending =
        []) := by
  refine ⟨by cases transferFails <;> rfl, ?_, ?_, ?_⟩
  · intro u hu
    have hups : (deployChangedRun toRel params pending midEvents transferFails).uploads =
        if pending.length != 0 then deployChangedUploads toRel params pending
        else [] := by
      cases transferFails <;> rfl
    rw [hups] at hu
    split at hu
    · simp only [deployChangedUploads] at hu
      obtain ⟨uri, huri, rfl⟩ := List.mem_map.mp hu
      obtain ⟨hmem, hflt⟩ := List.mem_filter.mp huri
      obtain ⟨entry, hentry, rfl⟩ := List.mem_map.mp hmem
      exact ⟨entry, hentry, rfl⟩
    · exact absurd hu (List.not_mem_nil u)
  · intro hf
    rw [hf]
    rfl
  · intro hf
    rw [hf]
    rfl

/-- Witness for C3: a failed run keeps its mid-deployment events
pending. -/
theorem changed_run_snapshot_amended_witness :
    (deployChangedRun (fun p => p)
        { workspaceFsPath := "/w", remotePath := "/deploy", ignoreRules := none }
        [] [] true).finalPending = applyEvents [] [] :=
  (changed_run_snapshot_amended (fun p => p)
    { workspaceFsPath := "/w", remotePath := "/deploy", ignoreRules := none }
    [] [] true).2.2.1 rfl

/-- C4: for every deployment invocation, whatever the method, the
pending map of the workspace is cleared exactly when the orchestrator
judges the run successful (no strategy error and no transfer failure):
success removes every pending entry, and a failed (error-raising) run
removes nothing — with no concurrent watcher events, the map is exactly
as before. -/
theorem deploy_clears_pending_iff_success
    (method : DeploymentMethod) (repositories : List Repository)
    (env : RemoteEnv) (params : DeploymentParameters)
    (md5Local : String → String) (localFiles : List LocalFile)
    (remoteMD5 : List MD5Entry) (pending : ChangeMap)
    (midEvents : List WatchEvent) (transferFails : Bool) :
    ((deploy method repositories env params md5Local localFiles remoteMD5
        pending midEvents transferFails).success = true ↔
      (transferFails = false ∧
        methodErr method repositories env params md5Local localFiles
          remoteMD5 = none)) ∧
    ((deploy method repositories env params md5Local localFiles remoteMD5
        pending midEvents transferFails).success = true →
      (deploy method repositories env params md5Local localFiles remoteMD5
        pending midEvents transferFails).finalPending = []) ∧
    ((deploy method repositories env params md5Local localFiles remoteMD5
        pending midEvents transferFails).success = false →
      (deploy method repositories env params md5Local localFiles remoteMD5
        pending midEvents transferFails).finalPending =
        applyEvents pending midEvents) ∧
    ((deploy method repositories env params md5Local localFiles remoteMD5
        pending [] transferFails).success = false →
      (deploy method repositories env params md5Local localFiles remoteMD5
        pending [] transferFails).finalPending = pending) := by
  cases transferFails <;>
    cases herr : methodErr method repositories env params md5Local localFiles
      remoteMD5 <;>
    simp [deploy, herr, applyEvents]

/-- Witness for C4: a successful bulk-transfer run over a one-entry
pending map ends with an empty pending map. -/
theorem deploy_clears_pending_iff_success_witness :
    (deploy DeploymentMethod.all []
        { md5sumAvailable := true, lsWcStdout := "0" }
        { workspaceFsPath := "/w", remotePath := "/deploy", ignoreRules := none }
        (fun _ => "h1") [] []
        [("/w/a.txt", { scheme := "file", fsPath := "/w/a.txt", path := "/w/a.txt" })]
        [] false).finalPending = [] :=
  (deploy_clears_pending_iff_success DeploymentMethod.all []
    { md5sumAvailable := true, lsWcStdout := "0" }
    { workspaceFsPath := "/w", remotePath := "/deploy", ignoreRules := none }
    (fun _ => "h1") [] []
    [("/w/a.txt", { scheme := "file", fsPath := "/w/a.txt", path := "/w/a.txt" })]
    [] false).2.1 (by decide)

end Deployment
